import Mathlib

/-!
Shallow embedding of the trading-card ingestion pipeline: the delimited-text
parser, column resolver, record builder, multi-source merger and query engine,
together with proofs of the specified properties.  JavaScript strings are
modelled as `List Char` / `String`, JavaScript numbers as `JSNum` (an integer
scaled by a power of ten, plus NaN and the infinities), and `undefined` as
`Option.none`.
-/

set_option linter.unusedVariables false
set_option linter.unnecessarySeqFocus false
set_option maxRecDepth 100000

namespace Cards

/-! ### Character-level helpers (JS string primitives) -/

/-- The JavaScript whitespace class used by `String.prototype.trim` and by the
regex class `\s`. -/
def jsWs (c : Char) : Bool :=
  let n := c.toNat
  n == 32 || (9 ≤ n && n ≤ 13) || n == 0xA0 || n == 0x1680 ||
    (0x2000 ≤ n && n ≤ 0x200A) || n == 0x2028 || n == 0x2029 ||
    n == 0x202F || n == 0x205F || n == 0x3000 || n == 0xFEFF

/-- Characters kept by the slug regex class `[a-z0-9]` (case-insensitive). -/
def keepAlnum (c : Char) : Bool :=
  c.isDigit || (97 ≤ c.toNat && c.toNat ≤ 122) || (65 ≤ c.toNat && c.toNat ≤ 90)

/-- Drop characters satisfying `p` from both ends of a character list. -/
def trimEnds (p : Char → Bool) (l : List Char) : List Char :=
  ((l.dropWhile p).reverse.dropWhile p).reverse

/-- Model of `String.prototype.trim`. -/
def jsTrim (l : List Char) : List Char := trimEnds jsWs l

def jsTrimS (s : String) : String := String.mk (jsTrim s.data)

def lowerL (l : List Char) : List Char := l.map Char.toLower

/-- Model of `String.prototype.toLowerCase` (ASCII range). -/
def strLower (s : String) : String := String.mk (lowerL s.data)

def upperL (l : List Char) : List Char := l.map Char.toUpper

/-- Model of `String.prototype.toUpperCase` (ASCII range). -/
def strUpper (s : String) : String := String.mk (upperL s.data)

/-- `stripBOM`: drop a leading byte-order mark. -/
def stripBOM (s : String) : String :=
  match s.data with
  | '\uFEFF' :: rest => String.mk rest
  | _ => s

/-! ### Decimal rendering (JS `String(n)` for integers) -/

def digitChar : Nat → Char
  | 0 => '0' | 1 => '1' | 2 => '2' | 3 => '3' | 4 => '4'
  | 5 => '5' | 6 => '6' | 7 => '7' | 8 => '8' | _ => '9'

def decDigits : Nat → Nat → List Char
  | 0, _ => []
  | fuel + 1, n =>
    if n < 10 then [digitChar n] else decDigits fuel (n / 10) ++ [digitChar (n % 10)]

/-- Decimal representation of a natural number, as in JS `String(n)`. -/
def decNat (n : Nat) : List Char := decDigits (n + 1) n

def natStr (n : Nat) : String := String.mk (decNat n)

/-- Decimal representation of an integer, as in JS `String(n)`. -/
def decInt (i : Int) : List Char :=
  if i < 0 then '-' :: decNat i.natAbs else decNat i.toNat

def intStr (i : Int) : String := String.mk (decInt i)

/-! ### `slugify` -/

/-- `Array.prototype.join(" ")` on character lists. -/
def joinSp : List (List Char) → List Char
  | [] => []
  | [p] => p
  | p :: q :: rest => p ++ ' ' :: joinSp (q :: rest)

/-- First phase of `replace(/[^a-z0-9]+/gi, "-")`: pointwise replacement. -/
def dashify (l : List Char) : List Char :=
  l.map fun c => if keepAlnum c then c else '-'

/-- Second phase of `replace(/[^a-z0-9]+/gi, "-")`: collapse runs of dashes. -/
def squash : List Char → List Char
  | [] => []
  | [c] => [c]
  | a :: b :: rest =>
    if a == '-' && b == '-' then squash (b :: rest) else a :: squash (b :: rest)

/-- `replace(/^-+|-+$/g, "")`. -/
def stripDashes (l : List Char) : List Char := trimEnds (fun c => c == '-') l

def slugCore (l : List Char) : List Char :=
  stripDashes (squash (dashify (lowerL (jsTrim l))))

/-- `slugify(...parts)`: join the truthy parts with spaces, trim, lower-case,
replace runs of non-alphanumerics by `-`, strip outer dashes, defaulting to
`"row"`. -/
def slugify (parts : List String) : String :=
  let joined := joinSp ((parts.filter fun p => p ≠ "").map String.data)
  let s := slugCore joined
  if s = [] then "row" else String.mk s

/-! ### JavaScript numbers -/

/-- A JavaScript number as produced by this pipeline: NaN, the two infinities,
or an integer `n` scaled by `10 ^ d`. -/
inductive JSNum where
  | nan
  | posInf
  | negInf
  | num (n : Int) (d : Nat)
deriving DecidableEq, Repr

/-- JS `x > 0`. -/
def jsGtZero : JSNum → Bool
  | .nan => false
  | .posInf => true
  | .negInf => false
  | .num n _ => 0 < n

/-- JS `x === 0` (for distinguishing zero from non-zero values). -/
def jsIsZero : JSNum → Bool
  | .num n _ => n == 0
  | _ => false

def isDigitCh (c : Char) : Bool := 48 ≤ c.toNat && c.toNat ≤ 57

def digitVal (c : Char) : Nat := c.toNat - 48

def digitsVal (l : List Char) : Nat := l.foldl (fun a c => 10 * a + digitVal c) 0

def hexVal (c : Char) : Nat :=
  if 48 ≤ c.toNat && c.toNat ≤ 57 then c.toNat - 48
  else if 97 ≤ c.toNat && c.toNat ≤ 102 then c.toNat - 87
  else c.toNat - 55

def isHexCh (c : Char) : Bool :=
  (48 ≤ c.toNat && c.toNat ≤ 57) || (97 ≤ c.toNat && c.toNat ≤ 102) ||
    (65 ≤ c.toNat && c.toNat ≤ 70)

def isOctCh (c : Char) : Bool := 48 ≤ c.toNat && c.toNat ≤ 55

def isBinCh (c : Char) : Bool := c == '0' || c == '1'

def radixVal (r : Nat) (l : List Char) : Nat := l.foldl (fun a c => r * a + hexVal c) 0

/-- Parse the optional sign and digits of an exponent. -/
def parseExpTail (l : List Char) : Option Int :=
  match l with
  | '+' :: ds => if ds ≠ [] ∧ ds.all isDigitCh then some (Int.ofNat (digitsVal ds)) else none
  | '-' :: ds => if ds ≠ [] ∧ ds.all isDigitCh then some (-(Int.ofNat (digitsVal ds))) else none
  | ds => if ds ≠ [] ∧ ds.all isDigitCh then some (Int.ofNat (digitsVal ds)) else none

/-- Apply a decimal exponent to a scaled mantissa. -/
def applyExp (m : Int) (d : Nat) (e : Int) : JSNum :=
  if 0 ≤ e then
    let k := e.toNat
    if d ≤ k then .num (m * (10 : Int) ^ (k - d)) 0 else .num m (d - k)
  else .num m (d + (-e).toNat)

/-- Parse `digits [. digits]`, returning mantissa, power-of-ten denominator and
the unconsumed tail. -/
def parseDecBody (l : List Char) : Option (Int × Nat × List Char) :=
  let ip := l.takeWhile isDigitCh
  let r1 := l.dropWhile isDigitCh
  match r1 with
  | '.' :: r2 =>
    let fp := r2.takeWhile isDigitCh
    let r3 := r2.dropWhile isDigitCh
    if ip = [] ∧ fp = [] then none
    else some (Int.ofNat (digitsVal (ip ++ fp)), fp.length, r3)
  | _ => if ip = [] then none else some (Int.ofNat (digitsVal ip), 0, r1)

def finishDec (m : Int) (d : Nat) : List Char → Option JSNum
  | [] => some (.num m d)
  | 'e' :: tl => (parseExpTail tl).map (applyExp m d)
  | 'E' :: tl => (parseExpTail tl).map (applyExp m d)
  | _ => none

/-- A decimal literal or `Infinity` (the only bodies that may carry a sign). -/
def parseSignedBody (l : List Char) : Option JSNum :=
  if l = "Infinity".data then some .posInf
  else
    match parseDecBody l with
    | none => none
    | some (m, d, rest) => finishDec m d rest

/-- An unsigned numeric literal: decimal, `Infinity`, hex, octal or binary. -/
def parseUnsigned (l : List Char) : Option JSNum :=
  match l with
  | '0' :: 'x' :: ds =>
    if ds ≠ [] ∧ ds.all isHexCh then some (.num (Int.ofNat (radixVal 16 ds)) 0) else none
  | '0' :: 'X' :: ds =>
    if ds ≠ [] ∧ ds.all isHexCh then some (.num (Int.ofNat (radixVal 16 ds)) 0) else none
  | '0' :: 'o' :: ds =>
    if ds ≠ [] ∧ ds.all isOctCh then some (.num (Int.ofNat (radixVal 8 ds)) 0) else none
  | '0' :: 'O' :: ds =>
    if ds ≠ [] ∧ ds.all isOctCh then some (.num (Int.ofNat (radixVal 8 ds)) 0) else none
  | '0' :: 'b' :: ds =>
    if ds ≠ [] ∧ ds.all isBinCh then some (.num (Int.ofNat (radixVal 2 ds)) 0) else none
  | '0' :: 'B' :: ds =>
    if ds ≠ [] ∧ ds.all isBinCh then some (.num (Int.ofNat (radixVal 2 ds)) 0) else none
  | _ => parseSignedBody l

/-- Model of JS `Number(s)` for strings. -/
def jsNumber (s : String) : JSNum :=
  match jsTrim s.data with
  | [] => .num 0 0
  | '-' :: rest =>
    match parseSignedBody rest with
    | some .posInf => .negInf
    | some (.num n d) => .num (-n) d
    | _ => .nan
  | '+' :: rest => (parseSignedBody rest).getD .nan
  | t => (parseUnsigned t).getD .nan

/-- `Number(x || 0)`: an empty cell counts as the number `0`. -/
def jsNumber0 (s : String) : JSNum := if s = "" then .num 0 0 else jsNumber s

/-- Model of JS `Number.parseInt(s, 10)`: `none` encodes NaN. -/
def jsParseInt (s : String) : Option Int :=
  match jsTrim s.data with
  | '-' :: rest =>
    let ds := rest.takeWhile isDigitCh
    if ds = [] then none else some (-(Int.ofNat (digitsVal ds)))
  | '+' :: rest =>
    let ds := rest.takeWhile isDigitCh
    if ds = [] then none else some (Int.ofNat (digitsVal ds))
  | t =>
    let ds := t.takeWhile isDigitCh
    if ds = [] then none else some (Int.ofNat (digitsVal ds))

/-! ### Field-level coercions -/

/-- `parseBool`: `"true"/"1"` and `"false"/"0"` case-insensitively, otherwise
`undefined`. -/
def parseBool (x : String) : Option Bool :=
  if x = "" then none
  else
    let s := strLower (jsTrimS x)
    if s = "true" ∨ s = "1" then some true
    else if s = "false" ∨ s = "0" then some false
    else none

/-- The part of the grade regex after the literal `PSA`: an optional single
whitespace character (`\s?`) followed by one or two digits and end of input. -/
def psaTail (rest : List Char) : Option Nat :=
  let rest2 :=
    match rest with
    | c :: tl => if jsWs c then tl else rest
    | [] => rest
  match rest2 with
  | [d] => if isDigitCh d then some (digitVal d) else none
  | [d1, d2] => if isDigitCh d1 && isDigitCh d2 then some (10 * digitVal d1 + digitVal d2) else none
  | _ => none

/-- `normalizePC`: normalize a grade annotation to `"RAW"` or `"PSA<N>"` with
`N` between 1 and 10, otherwise `undefined`. -/
def normalizePC (value : String) : Option String :=
  if value = "" then none
  else
    let trimmed := strUpper (jsTrimS value)
    if trimmed = "" then none
    else if trimmed = "RAW" then some "RAW"
    else
      match trimmed.data with
      | 'P' :: 'S' :: 'A' :: rest =>
        match psaTail rest with
        | some grade => if 1 ≤ grade ∧ grade ≤ 10 then some ("PSA" ++ natStr grade) else none
        | none => none
      | _ => none

/-! ### The delimited-text parser (rows phase of `parseCSV`) -/

/-- Push the finished field onto the current row, trimming it. -/
def rowPush (field : List Char) (row : List String) : List String :=
  row ++ [String.mk (jsTrim field)]

/-- The after-loop handling of `parseCSV`: push the final field, and keep the
final row when it has more than one cell or a non-empty single cell. -/
def finishRows (field : List Char) (row : List String) (rows : List (List String)) :
    List (List String) :=
  let row1 := rowPush field row
  if 1 < row1.length ∨ (row1.length = 1 ∧ row1.headD "" ≠ "") then rows ++ [row1] else rows

/-- Emit the current row at a row break: kept only when some cell is
non-empty. -/
def emitRow (field : List Char) (row : List String) (rows : List (List String)) :
    List (List String) :=
  let row1 := rowPush field row
  if row1.any (fun cell => cell != "") then rows ++ [row1] else rows

/-- The character-scanning loop of `parseCSV`, with state (in-quotes flag,
current field, current row, emitted rows). -/
def parseRowsAux : Bool → List Char → List String → List (List String) → List Char →
    List (List String)
  | _, field, row, rows, [] => finishRows field row rows
  | true, field, row, rows, '"' :: '"' :: rest2 =>
    parseRowsAux true (field ++ ['"']) row rows rest2
  | true, field, row, rows, '"' :: rest => parseRowsAux false field row rows rest
  | true, field, row, rows, c :: rest => parseRowsAux true (field ++ [c]) row rows rest
  | false, field, row, rows, '"' :: rest => parseRowsAux true field row rows rest
  | false, field, row, rows, ',' :: rest => parseRowsAux false [] (rowPush field row) rows rest
  | false, field, row, rows, '\r' :: '\n' :: rest2 =>
    parseRowsAux false [] [] (emitRow field row rows) rest2
  | false, field, row, rows, '\n' :: rest =>
    parseRowsAux false [] [] (emitRow field row rows) rest
  | false, field, row, rows, '\r' :: rest =>
    parseRowsAux false [] [] (emitRow field row rows) rest
  | false, field, row, rows, c :: rest => parseRowsAux false (field ++ [c]) row rows rest

/-- The row phase of `parseCSV`: BOM stripping followed by the scanning loop. -/
def parseRows (csv : String) : List (List String) :=
  parseRowsAux false [] [] [] (stripBOM csv).data

/-- Reference scanner identical to `parseRowsAux` except that every row is
kept: no blank-row dropping at row breaks and no keep-condition on the final
row. It enumerates all rows of the input, so that which rows `parseRowsAux`
drops can be stated. -/
def parseRowsAllAux : Bool → List Char → List String → List (List String) → List Char →
    List (List String)
  | _, field, row, rows, [] => rows ++ [rowPush field row]
  | true, field, row, rows, '"' :: '"' :: rest2 =>
    parseRowsAllAux true (field ++ ['"']) row rows rest2
  | true, field, row, rows, '"' :: rest => parseRowsAllAux false field row rows rest
  | true, field, row, rows, c :: rest => parseRowsAllAux true (field ++ [c]) row rows rest
  | false, field, row, rows, '"' :: rest => parseRowsAllAux true field row rows rest
  | false, field, row, rows, ',' :: rest =>
    parseRowsAllAux false [] (rowPush field row) rows rest
  | false, field, row, rows, '\r' :: '\n' :: rest2 =>
    parseRowsAllAux false [] [] (rows ++ [rowPush field row]) rest2
  | false, field, row, rows, '\n' :: rest =>
    parseRowsAllAux false [] [] (rows ++ [rowPush field row]) rest
  | false, field, row, rows, '\r' :: rest =>
    parseRowsAllAux false [] [] (rows ++ [rowPush field row]) rest
  | false, field, row, rows, c :: rest => parseRowsAllAux false (field ++ [c]) row rows rest

/-- All rows of the input, with no dropping. -/
def parseRowsAll (csv : String) : List (List String) :=
  parseRowsAllAux false [] [] [] (stripBOM csv).data

/-! ### The column resolver -/

/-- Resolved column positions (`-1` in the source is modelled as `none`). -/
structure Indices where
  id : Option Nat
  nameEN : Option Nat
  nameJP : Option Nat
  notesEN : Option Nat
  notesJP : Option Nat
  originEN : Option Nat
  originJP : Option Nat
  number : Option Nat
  set : Option Nat
  year : Option Nat
  release : Option Nat
  rarity : Option Nat
  types : Option Nat
  language : Option Nat
  image : Option Nat
  imageBack : Option Nat
  illus : Option Nat
  era : Option Nat
  isMew : Option Nat
  isCameo : Option Nat
  isIntl : Option Nat
  edition : Option Nat
  psa8 : Option Nat
  psa9 : Option Nat
  psa10 : Option Nat
  bgsBL : Option Nat
  pc : Option Nat
deriving DecidableEq, Repr

/-- `findIdx`: try the primary name, then the aliases in order; matching is on
the lower-cased header text. -/
def findIdxIn (lc : List String) : List String → Option Nat
  | [] => none
  | x :: rest =>
    match lc.findIdx? (fun h => h == strLower x) with
    | some j => some j
    | none => findIdxIn lc rest

/-- Resolve all column indices from the lower-cased header cells. -/
def resolveIndices (lc : List String) : Indices where
  id := findIdxIn lc ["id", "card_id"]
  nameEN := findIdxIn lc ["name en", "name"]
  nameJP := findIdxIn lc ["name jp", "name_jp"]
  notesEN := findIdxIn lc ["notes en", "notes"]
  notesJP := findIdxIn lc ["notes jp", "notes_jp"]
  originEN := findIdxIn lc ["origin en", "origin"]
  originJP := findIdxIn lc ["origin jp", "origin_jp"]
  number := findIdxIn lc ["number", "no", "card no", "card #"]
  set := findIdxIn lc ["set", "set name", "series"]
  year := findIdxIn lc ["year"]
  release := findIdxIn lc ["release", "release date", "released"]
  rarity := findIdxIn lc ["rarity"]
  types := findIdxIn lc ["types"]
  language := findIdxIn lc ["language", "lang"]
  image := findIdxIn lc ["image front", "image", "image_front", "image url", "image_url", "img",
    "image link"]
  imageBack := findIdxIn lc ["image back", "image_back"]
  illus := findIdxIn lc ["illustrator", "artist"]
  era := findIdxIn lc ["era"]
  isMew := findIdxIn lc ["isMew", "ismew"]
  isCameo := findIdxIn lc ["isCameo", "iscameo"]
  isIntl := findIdxIn lc ["isIntl", "isintrl", "international"]
  edition := findIdxIn lc ["edition"]
  psa8 := findIdxIn lc ["psa8"]
  psa9 := findIdxIn lc ["psa9"]
  psa10 := findIdxIn lc ["psa10"]
  bgsBL := findIdxIn lc ["bgsBL", "bgs bl", "bgs_black_label"]
  pc := findIdxIn lc ["pc"]

/-- `get(j)`: a lookup past the end of the row or at an unresolved index yields
the empty string. -/
def getCell (cols : List String) (j : Option Nat) : String :=
  match j with
  | some k => cols.getD k ""
  | none => ""

/-! ### The record model and builder -/

/-- Population counts; the PSA counts are JS numbers (possibly NaN), `bgsBL`
is `null` exactly when the source cell was empty. -/
structure Population where
  psa8 : JSNum
  psa9 : JSNum
  psa10 : JSNum
  bgsBL : Option JSNum
deriving DecidableEq, Repr

/-- One trading-card record (`PokeCard`). -/
structure PokeCard where
  id : String
  nameEN : String
  nameJP : Option String := none
  number : String := ""
  set : String := ""
  year : Int := 0
  rarity : Option String := none
  types : List String := []
  language : Option String := none
  graded : Option Bool := none
  grade : Option String := none
  priceUSD : Option JSNum := none
  image : String := ""
  imageBack : Option String := none
  notesEN : Option String := none
  notesJP : Option String := none
  illustrator : Option String := none
  era : Option String := none
  originEN : Option String := none
  originJP : Option String := none
  release : Option String := none
  population : Option Population := none
  isMew : Option Bool := none
  isCameo : Option Bool := none
  isIntl : Option Bool := none
  edition : Option String := none
  pc : Option String := none
deriving DecidableEq, Repr

def sq : String := String.mk ['\x27']

/-- The placeholder image marker. -/
def IMG_FALLBACK : String :=
  "data:image/svg+xml;utf8,<svg xmlns=" ++ sq ++ "http://www.w3.org/2000/svg" ++ sq
    ++ " viewBox=" ++ sq ++ "0 0 300 420" ++ sq ++ "><rect width=" ++ sq ++ "100%" ++ sq
    ++ " height=" ++ sq ++ "100%" ++ sq ++ " fill=" ++ sq ++ "%23121212" ++ sq
    ++ "/><text x=" ++ sq ++ "50%" ++ sq ++ " y=" ++ sq ++ "50%" ++ sq
    ++ " dominant-baseline=" ++ sq ++ "middle" ++ sq ++ " text-anchor=" ++ sq ++ "middle" ++ sq
    ++ " fill=" ++ sq ++ "%23666" ++ sq ++ " font-family=" ++ sq ++ "sans-serif" ++ sq
    ++ " font-size=" ++ sq ++ "14" ++ sq ++ ">Image unavailable</text></svg>"

/-- `x || undefined`: an empty string becomes `undefined`. -/
def strOpt (s : String) : Option String := if s = "" then none else some s

/-- The record builder: one data row (at 1-based row position `r`) plus the
resolved indices yield a record, or `none` when no display name is available. -/
def buildCard (ix : Indices) (r : Nat) (cols : List String) : Option PokeCard :=
  let nameENRaw := getCell cols ix.nameEN
  let nameJPRaw := getCell cols ix.nameJP
  let nameEN := if nameENRaw ≠ "" then nameENRaw else nameJPRaw
  let image := if getCell cols ix.image ≠ "" then getCell cols ix.image else IMG_FALLBACK
  if nameEN = "" then none
  else
    let typesField := getCell cols ix.types
    let types :=
      if typesField ≠ "" then ((typesField.splitOn "|").map jsTrimS).filter (fun t => t ≠ "")
      else []
    let bgsBLRaw := getCell cols ix.bgsBL
    let pop : Population :=
      { psa8 := jsNumber0 (getCell cols ix.psa8)
        psa9 := jsNumber0 (getCell cols ix.psa9)
        psa10 := jsNumber0 (getCell cols ix.psa10)
        bgsBL := if bgsBLRaw = "" then none else some (jsNumber bgsBLRaw) }
    let hasPsaData := jsGtZero pop.psa8 || jsGtZero pop.psa9 || jsGtZero pop.psa10
    let hasBgsData := pop.bgsBL.isSome
    let maybePop := if hasPsaData || hasBgsData then some pop else none
    let edition := strOpt (getCell cols ix.edition)
    let yearNum := jsParseInt (getCell cols ix.year)
    let id :=
      if getCell cols ix.id ≠ "" then getCell cols ix.id
      else slugify [nameEN, getCell cols ix.set, getCell cols ix.number, natStr r]
    some
      { id := id
        nameEN := nameEN
        nameJP := strOpt nameJPRaw
        notesEN := strOpt (getCell cols ix.notesEN)
        notesJP := strOpt (getCell cols ix.notesJP)
        originEN := strOpt (getCell cols ix.originEN)
        originJP := strOpt (getCell cols ix.originJP)
        number := getCell cols ix.number
        set := getCell cols ix.set
        year := yearNum.getD 0
        rarity := strOpt (getCell cols ix.rarity)
        types := types
        language := strOpt (getCell cols ix.language)
        image := image
        imageBack := strOpt (getCell cols ix.imageBack)
        illustrator := strOpt (getCell cols ix.illus)
        era := strOpt (getCell cols ix.era)
        release := strOpt (getCell cols ix.release)
        isMew := parseBool (getCell cols ix.isMew)
        isCameo := parseBool (getCell cols ix.isCameo)
        isIntl := parseBool (getCell cols ix.isIntl)
        edition := edition
        population := maybePop
        pc := normalizePC (getCell cols ix.pc) }

/-- Build all data rows, numbering them from `r` (the source numbers from 1). -/
def buildRows (ix : Indices) : Nat → List (List String) → List PokeCard
  | _, [] => []
  | r, cols :: rest =>
    match buildCard ix r cols with
    | some c => c :: buildRows ix (r + 1) rest
    | none => buildRows ix (r + 1) rest

/-- Lower-cased, BOM-stripped, trimmed header cells. -/
def headerKeys (hdr : List String) : List String :=
  (hdr.map fun h => jsTrimS (stripBOM h)).map strLower

/-- `parseCSV`: rows, then header resolution, then the record builder; fewer
than two rows yield an empty record list. -/
def parseCSV (csv : String) : List PokeCard :=
  match parseRows csv with
  | [] => []
  | [_] => []
  | hdr :: dataRows => buildRows (resolveIndices (headerKeys hdr)) 1 dataRows

/-! ### The multi-source merger -/

/-- The three source categories. -/
inductive Flag where
  | mew
  | cameo
  | intl
deriving DecidableEq, Repr

/-- The source-tag slug component for a category flag. -/
def flagTag : Flag → String
  | .mew => "mew"
  | .cameo => "cameo"
  | .intl => "intl"

/-- `{ ...c, [g.flag]: true }`: force the category flag of the source. -/
def setFlag : Flag → PokeCard → PokeCard
  | .mew, c => { c with isMew := some true }
  | .cameo, c => { c with isCameo := some true }
  | .intl, c => { c with isIntl := some true }

/-- One (source-tag, record-list) group. -/
structure Group where
  cards : List PokeCard
  flag : Flag
deriving DecidableEq, Repr

/-- Re-identify one record: the id is regenerated from the source tag, name,
set, number, year and position; any incoming id is discarded. -/
def mergeOne (fl : Flag) (i : Nat) (c : PokeCard) : PokeCard :=
  setFlag fl
    { c with id := slugify [flagTag fl, c.nameEN, c.set, c.number, intStr c.year, natStr i] }

/-- `g.cards.forEach((c, index) => ...)`. -/
def mergeGroup (fl : Flag) : Nat → List PokeCard → List PokeCard
  | _, [] => []
  | i, c :: rest => mergeOne fl i c :: mergeGroup fl (i + 1) rest

/-- `mergeCardsNoDedupe`: concatenate the re-identified groups, in order,
without de-duplication. -/
def mergeCardsNoDedupe : List Group → List PokeCard
  | [] => []
  | g :: rest => mergeGroup g.flag 0 g.cards ++ mergeCardsNoDedupe rest

/-! ### The query engine -/

inductive SortKey where
  | releaseAsc
  | releaseDesc
  | yearDesc
  | yearAsc
  | name
  | rarity
deriving DecidableEq, Repr

structure FilterState where
  q : String
  mew : Bool
  cameo : Bool
  intl : Bool
  sortBy : SortKey
deriving Repr

/-- Substring test on character lists (JS `String.prototype.includes`). -/
def containsL (h n : List Char) : Bool :=
  n.isPrefixOf h ||
    match h with
    | [] => false
    | _ :: t => containsL t n

/-- The searchable fields of a record, with falsy entries removed. -/
def searchFields (c : PokeCard) : List String :=
  ([some c.nameEN, c.nameJP, some c.number, some c.set, c.rarity, c.notesEN, c.notesJP,
      c.originEN, c.originJP].filterMap id).filter fun v => v ≠ ""

/-- `releaseTs`, parameterized by the host date parser `dp` and by `yearMs`
(the timestamp of January 1 of a year); `none` models positive infinity. -/
def releaseTs (dp : String → Option Int) (yearMs : Int → Int) (c : PokeCard) : Option Int :=
  let fromRel : Option Int :=
    match c.release with
    | some r => if r = "" then none else dp r
    | none => none
  match fromRel with
  | some t => some t
  | none => if 0 < c.year then some (yearMs c.year) else none

/-- Ascending comparison of release timestamps (`none` = +∞ sorts last). -/
def tsLe : Option Int → Option Int → Bool
  | some a, some b => a ≤ b
  | some _, none => true
  | none, some _ => false
  | none, none => true

/-- Stable insertion sort standing in for `Array.prototype.sort`. -/
def insertLe (le : PokeCard → PokeCard → Bool) (x : PokeCard) : List PokeCard → List PokeCard
  | [] => [x]
  | y :: rest => if le x y then x :: y :: rest else y :: insertLe le x rest

def sortLe (le : PokeCard → PokeCard → Bool) : List PokeCard → List PokeCard
  | [] => []
  | x :: rest => insertLe le x (sortLe le rest)

/-- `applyFilters`, parameterized by the host `Date.parse` (`dp`), the
year-to-timestamp conversion (`yearMs`) and `localeCompare` (`lcmp`). -/
def applyFilters (dp : String → Option Int) (yearMs : Int → Int)
    (lcmp : String → String → Ordering) (cards : List PokeCard) (f : FilterState) :
    List PokeCard :=
  let items := cards
  let items :=
    if jsTrimS f.q ≠ "" then
      let term := strLower (jsTrimS f.q)
      items.filter fun c =>
        (searchFields c).any fun v => containsL (strLower v).data term.data
    else items
  let anyTag := f.mew || f.cameo || f.intl
  if !anyTag then []
  else
    let items := items.filter fun c =>
      (f.mew && (c.isMew == some true)) || (f.cameo && (c.isCameo == some true)) ||
        (f.intl && (c.isIntl == some true))
    match f.sortBy with
    | .releaseAsc =>
      sortLe (fun a b => tsLe (releaseTs dp yearMs a) (releaseTs dp yearMs b)) items
    | .releaseDesc =>
      sortLe (fun a b => tsLe (releaseTs dp yearMs b) (releaseTs dp yearMs a)) items
    | .yearAsc => sortLe (fun a b => a.year ≤ b.year) items
    | .name => sortLe (fun a b => lcmp a.nameEN b.nameEN ≠ .gt) items
    | .rarity =>
      sortLe (fun a b => lcmp (a.rarity.getD "") (b.rarity.getD "") ≠ .gt) items
    | _ => sortLe (fun a b => b.year ≤ a.year) items

/-- The values admitted by the declared TypeScript union type
`Edition = "1st" | "Unlim"`. -/
def isEdition (s : String) : Bool := s == "1st" || s == "Unlim"

/-! ## Verification -/

/-! ### C5: quoted-cell round trip -/

/-- C5: a data row containing the quoted cell text `"He said ""hi"", ok"`
parses to a single cell holding the literal string `He said "hi", ok`: the
doubled quote is an escaped literal quote, and the comma inside the quoted
field does not split the field. -/
theorem c5_quoted_cell_roundtrip :
    parseRows "h\n\"He said \"\"hi\"\", ok\"" = [["h"], ["He said \"hi\", ok"]] := by
  rfl

/-! ### C9: no category selected -/

/-- C9: whatever the record collection, the query text and the sort key, and
whatever the host date parsing and locale comparison do, when all three
category toggles are off the query engine returns the empty sequence. -/
theorem c9_all_toggles_off_empty (dp : String → Option Int) (yearMs : Int → Int)
    (lcmp : String → String → Ordering) (cards : List PokeCard) (q : String) (sb : SortKey) :
    applyFilters dp yearMs lcmp cards ⟨q, false, false, false, sb⟩ = [] := by
  simp [applyFilters]

/-! ### C10: Japanese-only display name -/

/-- C10: a data row whose English-name cell is empty but whose Japanese-name
cell is non-empty is not skipped; the built record has `nameEN` set to the
Japanese cell value and `nameJP` holding the same value. -/
theorem c10_japanese_name_fallback (ix : Indices) (r : Nat) (cols : List String)
    (hEN : getCell cols ix.nameEN = "") (hJP : getCell cols ix.nameJP ≠ "") :
    ∃ c, buildCard ix r cols = some c ∧
      c.nameEN = getCell cols ix.nameJP ∧ c.nameJP = some (getCell cols ix.nameJP) := by
  unfold buildCard
  simp only [hEN, ne_eq, not_true_eq_false, if_false, if_neg hJP]
  exact ⟨_, rfl, rfl, by simp [strOpt, hJP]⟩

/-- Witness for C10 at a concrete header and row. -/
theorem c10_witness :
    ∃ c, buildCard (resolveIndices (headerKeys ["name en", "name jp"])) 1 ["", "JPonly"]
        = some c ∧
      c.nameEN = getCell ["", "JPonly"] (resolveIndices (headerKeys ["name en", "name jp"])).nameJP ∧
      c.nameJP =
        some (getCell ["", "JPonly"] (resolveIndices (headerKeys ["name en", "name jp"])).nameJP) :=
  c10_japanese_name_fallback _ 1 _ (by decide) (by decide)

/-! ### C7: the edition field is not confined to the declared closed set -/

/-- C7: the record builder stores the raw edition cell without validation
(the TypeScript `as Edition` cast has no runtime effect), so a row whose
edition cell is `"2nd"` yields a record whose edition is `"2nd"`, outside the
declared closed set `{"1st", "Unlim"}`. -/
theorem c7_edition_escapes_closed_set :
    (parseCSV "name en,edition\nPika,2nd").map (fun c => c.edition) = [some "2nd"] ∧
      isEdition "2nd" = false := by
  exact ⟨by decide, by decide⟩

/-! ### C8: population presence -/

/-- C8 (amended): the built record carries the population sub-object exactly
when one of the three PSA counts is strictly positive (as a JS number) or the
BGS cell is non-empty (so `bgsBL` is non-null). -/
theorem c8_population_presence (ix : Indices) (r : Nat) (cols : List String) (c : PokeCard)
    (h : buildCard ix r cols = some c) :
    c.population.isSome =
      (jsGtZero (jsNumber0 (getCell cols ix.psa8)) || jsGtZero (jsNumber0 (getCell cols ix.psa9))
        || jsGtZero (jsNumber0 (getCell cols ix.psa10)) || !(getCell cols ix.bgsBL == "")) := by
  simp only [buildCard] at h
  by_cases hn :
      (if getCell cols ix.nameEN ≠ "" then getCell cols ix.nameEN else getCell cols ix.nameJP)
        = ""
  · simp [hn] at h
  · rw [if_neg hn] at h
    obtain rfl := Option.some.inj h
    by_cases hb : getCell cols ix.bgsBL = "" <;>
      simp [hb] <;>
      cases jsGtZero (jsNumber0 (getCell cols ix.psa8)) <;>
      cases jsGtZero (jsNumber0 (getCell cols ix.psa9)) <;>
      cases jsGtZero (jsNumber0 (getCell cols ix.psa10)) <;>
      simp

/-- Witness for C8 at a concrete header and row carrying a PSA9 count of 3. -/
theorem c8_witness :
    ((buildCard (resolveIndices (headerKeys ["name en", "psa9"])) 1 ["A", "3"]).getD
          { id := "", nameEN := "" }).population.isSome =
      (jsGtZero (jsNumber0 (getCell ["A", "3"]
            (resolveIndices (headerKeys ["name en", "psa9"])).psa8))
        || jsGtZero (jsNumber0 (getCell ["A", "3"]
            (resolveIndices (headerKeys ["name en", "psa9"])).psa9))
        || jsGtZero (jsNumber0 (getCell ["A", "3"]
            (resolveIndices (headerKeys ["name en", "psa9"])).psa10))
        || !(getCell ["A", "3"] (resolveIndices (headerKeys ["name en", "psa9"])).bgsBL == "")) :=
  c8_population_presence (resolveIndices (headerKeys ["name en", "psa9"])) 1 ["A", "3"] _
    (by decide)

/-- Counterexample for C8 as stated: a PSA8 cell holding `-1` is a non-zero
count, yet the built record omits the population sub-object (the code tests
for strictly positive counts, not non-zero ones). -/
theorem c8_counterexample :
    (parseCSV "name en,psa8\nA,-1").map (fun c => c.population) = [none] ∧
      jsIsZero (jsNumber0 "-1") = false := by
  exact ⟨by decide, by decide⟩

/-! ### C6: grade normalization -/

lemma jsWs_not_digit {c : Char} (h : jsWs c = true) : isDigitCh c = false := by
  simp [jsWs] at h
  simp [isDigitCh]
  omega

/-- The grade patterns admitted by the (amended) specification text, applied
to what follows the literal `PSA`: one or two digits, optionally preceded by a
single whitespace character. -/
def gradeSpecTail : List Char → Option Nat
  | [d] => if isDigitCh d then some (digitVal d) else none
  | [a, b] =>
    if isDigitCh a && isDigitCh b then some (10 * digitVal a + digitVal b)
    else if jsWs a && isDigitCh b then some (digitVal b)
    else none
  | [w, d1, d2] =>
    if jsWs w && isDigitCh d1 && isDigitCh d2 then some (10 * digitVal d1 + digitVal d2)
    else none
  | _ => none

/-- C6 amended specification of grade normalization, written from the spec
text: upper-case and trim; the literal `RAW` passes through; `PSA`, an
optional single whitespace character, and one or two digits are accepted
exactly when the numeric value lies in `[1, 10]`, producing `PSA<N>`;
anything else is undefined. -/
def gradeSpec (s : String) : Option String :=
  let t := strUpper (jsTrimS s)
  if t = "RAW" then some "RAW"
  else
    match t.data with
    | 'P' :: 'S' :: 'A' :: rest =>
      match gradeSpecTail rest with
      | some g => if 1 ≤ g ∧ g ≤ 10 then some ("PSA" ++ natStr g) else none
      | none => none
    | _ => none

lemma psaTail_eq_gradeSpecTail (rest : List Char) : psaTail rest = gradeSpecTail rest := by
  rcases rest with _ | ⟨a, _ | ⟨b, _ | ⟨c, _ | ⟨d, tl⟩⟩⟩⟩
  · rfl
  · by_cases hw : jsWs a
    · simp [psaTail, gradeSpecTail, hw, jsWs_not_digit hw]
    · simp [psaTail, gradeSpecTail, hw]
  · by_cases hw : jsWs a
    · simp [psaTail, gradeSpecTail, hw, jsWs_not_digit hw]
    · simp [psaTail, gradeSpecTail, hw]
  · by_cases hw : jsWs a
    · simp [psaTail, gradeSpecTail, hw]
    · simp [psaTail, gradeSpecTail, hw]
  · by_cases hw : jsWs a
    · simp [psaTail, gradeSpecTail, hw]
    · simp [psaTail, gradeSpecTail, hw]

/-- C6 (amended): `normalizePC` agrees with the specification `gradeSpec` on
every input (with the specified "optional single space" generalized to an
optional single whitespace character), including the three specified
examples. -/
theorem c6_grade_normalization :
    (∀ s : String, normalizePC s = gradeSpec s) ∧
      normalizePC "psa 9" = some "PSA9" ∧ normalizePC "PSA11" = none ∧
        normalizePC "raw" = some "RAW" := by
  refine ⟨?_, by decide, by decide, by decide⟩
  intro s
  by_cases h0 : s = ""
  · subst h0; rfl
  · unfold normalizePC gradeSpec
    rw [if_neg h0]
    by_cases hE : strUpper (jsTrimS s) = ""
    · simp only [hE, if_pos rfl]
      decide
    · rw [if_neg hE]
      simp only [psaTail_eq_gradeSpecTail]

/-- Counterexample for C6 as stated: a tab (not a space) between `PSA` and
the digit is accepted by the code, because the regex `\s?` matches any single
whitespace character; the claim as stated demands undefined for this input. -/
theorem c6_counterexample : normalizePC "PSA\t9" = some "PSA9" ∧ '\t' ≠ ' ' := by
  exact ⟨by decide, by decide⟩

/-! ### C3: all-empty rows -/

lemma emitRow_inv (field : List Char) (row : List String) (rows : List (List String))
    (hrows : ∀ r ∈ rows, ∃ cell ∈ r, cell ≠ "") :
    ∀ r ∈ emitRow field row rows, ∃ cell ∈ r, cell ≠ "" := by
  intro r hr
  simp only [emitRow] at hr
  split at hr
  case isTrue h =>
    rcases List.mem_append.mp hr with h1 | h1
    · exact hrows r h1
    · obtain rfl : r = rowPush field row := by simpa using h1
      obtain ⟨cell, hc, hne⟩ := List.any_eq_true.mp h
      exact ⟨cell, hc, by simpa using hne⟩
  case isFalse h => exact hrows r hr

lemma finishRows_all_empty (field : List Char) (row : List String) (rows : List (List String))
    (hrows : ∀ r ∈ rows, ∃ cell ∈ r, cell ≠ "") :
    ∀ r ∈ finishRows field row rows, (∀ cell ∈ r, cell = "") →
      (∃ pre, finishRows field row rows = pre ++ [r]) ∧ 2 ≤ r.length := by
  intro r hr hemp
  simp only [finishRows] at hr
  split at hr
  case isTrue h =>
    rcases List.mem_append.mp hr with h1 | h1
    · obtain ⟨cell, hc, hne⟩ := hrows r h1
      exact absurd (hemp cell hc) hne
    · obtain rfl : r = rowPush field row := by simpa using h1
      constructor
      · exact ⟨rows, by simp only [finishRows]; rw [if_pos h]⟩
      · rcases h with h | ⟨hlen, hhd⟩
        · omega
        · exfalso
          cases hx : rowPush field row with
          | nil => simp [rowPush] at hx
          | cons a t =>
            rw [hx] at hhd
            exact hhd (hemp a (by rw [hx]; exact List.mem_cons_self a t))
  case isFalse h =>
    obtain ⟨cell, hc, hne⟩ := hrows r hr
    exact absurd (hemp cell hc) hne

/-! One-step reduction lemmas for the scanning loop. -/

lemma stepNil (inQ : Bool) (field : List Char) (row : List String) (rows : List (List String)) :
    parseRowsAux inQ field row rows [] = finishRows field row rows := by
  cases inQ <;> rfl

lemma stepNL (field : List Char) (row : List String) (rows : List (List String))
    (rest : List Char) :
    parseRowsAux false field row rows ('\n' :: rest)
      = parseRowsAux false [] [] (emitRow field row rows) rest := rfl

lemma stepCRLF (field : List Char) (row : List String) (rows : List (List String))
    (rest2 : List Char) :
    parseRowsAux false field row rows ('\r' :: '\n' :: rest2)
      = parseRowsAux false [] [] (emitRow field row rows) rest2 := rfl

lemma stepCR (field : List Char) (row : List String) (rows : List (List String))
    (rest : List Char) (hne : ∀ rest2, rest = '\n' :: rest2 → False) :
    parseRowsAux false field row rows ('\r' :: rest)
      = parseRowsAux false [] [] (emitRow field row rows) rest := by
  cases rest with
  | nil => rfl
  | cons a t =>
    by_cases ha : a = '\n'
    · exact absurd (by rw [ha]) (hne t)
    · simp [parseRowsAux, ha]

lemma stepComma (field : List Char) (row : List String) (rows : List (List String))
    (rest : List Char) :
    parseRowsAux false field row rows (',' :: rest)
      = parseRowsAux false [] (rowPush field row) rows rest := rfl

lemma stepQQ (field : List Char) (row : List String) (rows : List (List String))
    (rest2 : List Char) :
    parseRowsAux true field row rows ('"' :: '"' :: rest2)
      = parseRowsAux true (field ++ ['"']) row rows rest2 := rfl

lemma stepOpenQ (field : List Char) (row : List String) (rows : List (List String))
    (rest : List Char) :
    parseRowsAux false field row rows ('"' :: rest)
      = parseRowsAux true field row rows rest := rfl

lemma stepCloseQ (field : List Char) (row : List String) (rows : List (List String))
    (rest : List Char) (hne : ∀ rest2, rest = '"' :: rest2 → False) :
    parseRowsAux true field row rows ('"' :: rest)
      = parseRowsAux false field row rows rest := by
  cases rest with
  | nil => rfl
  | cons a t =>
    by_cases ha : a = '"'
    · exact absurd (by rw [ha]) (hne t)
    · simp [parseRowsAux, ha]

lemma stepInQ (field : List Char) (row : List String) (rows : List (List String)) (c : Char)
    (rest : List Char) (hc : ¬ c = '"') :
    parseRowsAux true field row rows (c :: rest)
      = parseRowsAux true (field ++ [c]) row rows rest := by
  simp [parseRowsAux, hc]

lemma stepPlain (field : List Char) (row : List String) (rows : List (List String)) (c : Char)
    (rest : List Char) (h1 : ¬ c = '"') (h2 : ¬ c = ',') (h3 : ¬ c = '\n') (h4 : ¬ c = '\r') :
    parseRowsAux false field row rows (c :: rest)
      = parseRowsAux false (field ++ [c]) row rows rest := by
  simp [parseRowsAux, h1, h2, h3, h4]

lemma parseRowsAux_all_empty (inQ : Bool) (field : List Char) (row : List String)
    (rows : List (List String)) (cs : List Char) :
    (∀ r ∈ rows, ∃ cell ∈ r, cell ≠ "") →
    ∀ r ∈ parseRowsAux inQ field row rows cs, (∀ cell ∈ r, cell = "") →
      (∃ pre, parseRowsAux inQ field row rows cs = pre ++ [r]) ∧ 2 ≤ r.length := by
  induction inQ, field, row, rows, cs using parseRowsAux.induct with
  | case1 inQ field row rows =>
    intro hrows
    rw [stepNil]
    exact finishRows_all_empty field row rows hrows
  | case2 field row rows rest2 ih =>
    intro hrows
    rw [stepQQ]
    exact ih hrows
  | case3 field row rows rest hne ih =>
    intro hrows
    rw [stepCloseQ field row rows rest hne]
    exact ih hrows
  | case4 field row rows c rest hne1 hne2 ih =>
    intro hrows
    rw [stepInQ field row rows c rest hne2]
    exact ih hrows
  | case5 field row rows rest ih =>
    intro hrows
    rw [stepOpenQ]
    exact ih hrows
  | case6 field row rows rest ih =>
    intro hrows
    rw [stepComma]
    exact ih hrows
  | case7 field row rows rest2 ih =>
    intro hrows
    rw [stepCRLF]
    exact ih (emitRow_inv field row rows hrows)
  | case8 field row rows rest ih =>
    intro hrows
    rw [stepNL]
    exact ih (emitRow_inv field row rows hrows)
  | case9 field row rows rest hne ih =>
    intro hrows
    rw [stepCR field row rows rest hne]
    exact ih (emitRow_inv field row rows hrows)
  | case10 field row rows c rest h1 h2 h3 h4 h5 ih =>
    intro hrows
    rw [stepPlain field row rows c rest h1 h2 h4 h5]
    exact ih hrows

/-! One-step reduction lemmas for the keep-everything reference scanner. -/

lemma aStepNil (inQ : Bool) (field : List Char) (row : List String)
    (rows : List (List String)) :
    parseRowsAllAux inQ field row rows [] = rows ++ [rowPush field row] := by
  cases inQ <;> rfl

lemma aStepNL (field : List Char) (row : List String) (rows : List (List String))
    (rest : List Char) :
    parseRowsAllAux false field row rows ('\n' :: rest)
      = parseRowsAllAux false [] [] (rows ++ [rowPush field row]) rest := rfl

lemma aStepCRLF (field : List Char) (row : List String) (rows : List (List String))
    (rest2 : List Char) :
    parseRowsAllAux false field row rows ('\r' :: '\n' :: rest2)
      = parseRowsAllAux false [] [] (rows ++ [rowPush field row]) rest2 := rfl

lemma aStepCR (field : List Char) (row : List String) (rows : List (List String))
    (rest : List Char) (hne : ∀ rest2, rest = '\n' :: rest2 → False) :
    parseRowsAllAux false field row rows ('\r' :: rest)
      = parseRowsAllAux false [] [] (rows ++ [rowPush field row]) rest := by
  cases rest with
  | nil => rfl
  | cons a t =>
    by_cases ha : a = '\n'
    · exact absurd (by rw [ha]) (hne t)
    · simp [parseRowsAllAux, ha]

lemma aStepComma (field : List Char) (row : List String) (rows : List (List String))
    (rest : List Char) :
    parseRowsAllAux false field row rows (',' :: rest)
      = parseRowsAllAux false [] (rowPush field row) rows rest := rfl

lemma aStepQQ (field : List Char) (row : List String) (rows : List (List String))
    (rest2 : List Char) :
    parseRowsAllAux true field row rows ('"' :: '"' :: rest2)
      = parseRowsAllAux true (field ++ ['"']) row rows rest2 := rfl

lemma aStepOpenQ (field : List Char) (row : List String) (rows : List (List String))
    (rest : List Char) :
    parseRowsAllAux false field row rows ('"' :: rest)
      = parseRowsAllAux true field row rows rest := rfl

lemma aStepCloseQ (field : List Char) (row : List String) (rows : List (List String))
    (rest : List Char) (hne : ∀ rest2, rest = '"' :: rest2 → False) :
    parseRowsAllAux true field row rows ('"' :: rest)
      = parseRowsAllAux false field row rows rest := by
  cases rest with
  | nil => rfl
  | cons a t =>
    by_cases ha : a = '"'
    · exact absurd (by rw [ha]) (hne t)
    · simp [parseRowsAllAux, ha]

lemma aStepInQ (field : List Char) (row : List String) (rows : List (List String)) (c : Char)
    (rest : List Char) (hc : ¬ c = '"') :
    parseRowsAllAux true field row rows (c :: rest)
      = parseRowsAllAux true (field ++ [c]) row rows rest := by
  simp [parseRowsAllAux, hc]

lemma aStepPlain (field : List Char) (row : List String) (rows : List (List String)) (c : Char)
    (rest : List Char) (h1 : ¬ c = '"') (h2 : ¬ c = ',') (h3 : ¬ c = '\n') (h4 : ¬ c = '\r') :
    parseRowsAllAux false field row rows (c :: rest)
      = parseRowsAllAux false (field ++ [c]) row rows rest := by
  simp [parseRowsAllAux, h1, h2, h3, h4]

lemma emitRow_superset (field : List Char) (row : List String) (rows : List (List String)) :
    ∀ r ∈ rows, r ∈ emitRow field row rows := by
  intro r hr
  simp only [emitRow]
  split
  · exact List.mem_append_left _ hr
  · exact hr

lemma emitRow_push_mem (field : List Char) (row : List String) (rows : List (List String))
    (h : ∃ cell ∈ rowPush field row, cell ≠ "") : rowPush field row ∈ emitRow field row rows := by
  have hany : (rowPush field row).any (fun cell => cell != "") = true := by
    obtain ⟨cell, hc, hcne⟩ := h
    exact List.any_eq_true.mpr ⟨cell, hc, by simpa using hcne⟩
  simp only [emitRow]
  rw [if_pos hany]
  exact List.mem_append_right _ (by simp)

lemma emit_inv_step (field : List Char) (row : List String) (rows rowsA : List (List String))
    (hsub : ∀ r ∈ rowsA, (∃ cell ∈ r, cell ≠ "") → r ∈ rows) :
    ∀ r ∈ rowsA ++ [rowPush field row], (∃ cell ∈ r, cell ≠ "") →
      r ∈ emitRow field row rows := by
  intro r hr hne
  rcases List.mem_append.mp hr with h | h
  · exact emitRow_superset field row rows r (hsub r h hne)
  · obtain rfl : r = rowPush field row := by simpa using h
    exact emitRow_push_mem field row rows hne

lemma finishRows_push_mem (field : List Char) (row : List String) (rows : List (List String))
    (hcond : 1 < (rowPush field row).length
      ∨ ((rowPush field row).length = 1 ∧ (rowPush field row).headD "" ≠ "")) :
    rowPush field row ∈ finishRows field row rows := by
  simp only [finishRows]
  rw [if_pos hcond]
  exact List.mem_append_right _ (by simp)

/-- Every row of the reference scanner holding a non-empty cell survives into
the output of the real scanner. -/
lemma parseRowsAllAux_sub (inQ : Bool) (field : List Char) (row : List String)
    (rowsA : List (List String)) (cs : List Char) :
    ∀ rows : List (List String),
      (∀ r ∈ rowsA, (∃ cell ∈ r, cell ≠ "") → r ∈ rows) →
      ∀ r ∈ parseRowsAllAux inQ field row rowsA cs, (∃ cell ∈ r, cell ≠ "") →
        r ∈ parseRowsAux inQ field row rows cs := by
  induction inQ, field, row, rowsA, cs using parseRowsAllAux.induct with
  | case1 inQ field row rowsA =>
    intro rows hsub r hr hne
    rw [aStepNil] at hr
    rw [stepNil]
    rcases List.mem_append.mp hr with h | h
    · have hmem := hsub r h hne
      simp only [finishRows]
      split
      · exact List.mem_append_left _ hmem
      · exact hmem
    · obtain rfl : r = rowPush field row := by simpa using h
      apply finishRows_push_mem
      obtain ⟨cell, hc, hcne⟩ := hne
      rcases hx : rowPush field row with _ | ⟨a, t⟩
      · rw [hx] at hc
        simp at hc
      · rcases t with _ | ⟨b, t2⟩
        · right
          rw [hx] at hc
          simp only [List.mem_singleton] at hc
          subst hc
          exact ⟨rfl, by simpa using hcne⟩
        · left
          simp
  | case2 field row rowsA rest2 ih =>
    intro rows hsub r hr hne
    rw [aStepQQ] at hr
    rw [stepQQ]
    exact ih rows hsub r hr hne
  | case3 field row rowsA rest hq ih =>
    intro rows hsub r hr hne
    rw [aStepCloseQ field row rowsA rest hq] at hr
    rw [stepCloseQ field row rows rest hq]
    exact ih rows hsub r hr hne
  | case4 field row rowsA c rest hq1 hq2 ih =>
    intro rows hsub r hr hne
    rw [aStepInQ field row rowsA c rest hq2] at hr
    rw [stepInQ field row rows c rest hq2]
    exact ih rows hsub r hr hne
  | case5 field row rowsA rest ih =>
    intro rows hsub r hr hne
    rw [aStepOpenQ] at hr
    rw [stepOpenQ]
    exact ih rows hsub r hr hne
  | case6 field row rowsA rest ih =>
    intro rows hsub r hr hne
    rw [aStepComma] at hr
    rw [stepComma]
    exact ih rows hsub r hr hne
  | case7 field row rowsA rest2 ih =>
    intro rows hsub r hr hne
    rw [aStepCRLF] at hr
    rw [stepCRLF]
    exact ih (emitRow field row rows) (emit_inv_step field row rows rowsA hsub) r hr hne
  | case8 field row rowsA rest ih =>
    intro rows hsub r hr hne
    rw [aStepNL] at hr
    rw [stepNL]
    exact ih (emitRow field row rows) (emit_inv_step field row rows rowsA hsub) r hr hne
  | case9 field row rowsA rest hq ih =>
    intro rows hsub r hr hne
    rw [aStepCR field row rowsA rest hq] at hr
    rw [stepCR field row rows rest hq]
    exact ih (emitRow field row rows) (emit_inv_step field row rows rowsA hsub) r hr hne
  | case10 field row rowsA c rest h1 h2 h3 h4 h5 ih =>
    intro rows hsub r hr hne
    rw [aStepPlain field row rowsA c rest h1 h2 h4 h5] at hr
    rw [stepPlain field row rows c rest h1 h2 h4 h5]
    exact ih rows hsub r hr hne

/-- The final row of the reference scanner (the unterminated last line) is
kept by the real scanner whenever it has at least two cells. -/
lemma parseRowsAllAux_last (inQ : Bool) (field : List Char) (row : List String)
    (rowsA : List (List String)) (cs : List Char) :
    ∀ (rows : List (List String)) (r : List String),
      (parseRowsAllAux inQ field row rowsA cs).getLast? = some r → 2 ≤ r.length →
      r ∈ parseRowsAux inQ field row rows cs := by
  induction inQ, field, row, rowsA, cs using parseRowsAllAux.induct with
  | case1 inQ field row rowsA =>
    intro rows r hr hlen
    rw [aStepNil, List.getLast?_concat] at hr
    obtain rfl : r = rowPush field row := by simpa using hr.symm
    rw [stepNil]
    exact finishRows_push_mem field row rows (Or.inl (by omega))
  | case2 field row rowsA rest2 ih =>
    intro rows r hr hlen
    rw [aStepQQ] at hr
    rw [stepQQ]
    exact ih rows r hr hlen
  | case3 field row rowsA rest hq ih =>
    intro rows r hr hlen
    rw [aStepCloseQ field row rowsA rest hq] at hr
    rw [stepCloseQ field row rows rest hq]
    exact ih rows r hr hlen
  | case4 field row rowsA c rest hq1 hq2 ih =>
    intro rows r hr hlen
    rw [aStepInQ field row rowsA c rest hq2] at hr
    rw [stepInQ field row rows c rest hq2]
    exact ih rows r hr hlen
  | case5 field row rowsA rest ih =>
    intro rows r hr hlen
    rw [aStepOpenQ] at hr
    rw [stepOpenQ]
    exact ih rows r hr hlen
  | case6 field row rowsA rest ih =>
    intro rows r hr hlen
    rw [aStepComma] at hr
    rw [stepComma]
    exact ih rows r hr hlen
  | case7 field row rowsA rest2 ih =>
    intro rows r hr hlen
    rw [aStepCRLF] at hr
    rw [stepCRLF]
    exact ih (emitRow field row rows) r hr hlen
  | case8 field row rowsA rest ih =>
    intro rows r hr hlen
    rw [aStepNL] at hr
    rw [stepNL]
    exact ih (emitRow field row rows) r hr hlen
  | case9 field row rowsA rest hq ih =>
    intro rows r hr hlen
    rw [aStepCR field row rowsA rest hq] at hr
    rw [stepCR field row rows rest hq]
    exact ih (emitRow field row rows) r hr hlen
  | case10 field row rowsA c rest h1 h2 h3 h4 h5 ih =>
    intro rows r hr hlen
    rw [aStepPlain field row rowsA c rest h1 h2 h4 h5] at hr
    rw [stepPlain field row rows c rest h1 h2 h4 h5]
    exact ih rows r hr hlen

/-- C3 (amended): a row of the parser output consisting entirely of empty
cells can only be the final output row, and then has at least two cells (the
final unterminated line with at least one comma), which is indeed kept; every
other all-empty line is dropped, and a row with a non-empty cell — in
particular a non-empty header row — is never dropped: every such row of the
keep-everything reference scan survives into the parser output. -/
theorem c3_all_empty_rows (csv : String) :
    (∀ r ∈ parseRows csv, (∀ cell ∈ r, cell = "") →
        (∃ pre, parseRows csv = pre ++ [r]) ∧ 2 ≤ r.length) ∧
      (∀ r ∈ parseRowsAll csv, (∃ cell ∈ r, cell ≠ "") → r ∈ parseRows csv) ∧
      ∀ r, (parseRowsAll csv).getLast? = some r → 2 ≤ r.length → r ∈ parseRows csv := by
  refine ⟨?_, ?_, ?_⟩
  · unfold parseRows
    exact parseRowsAux_all_empty false [] [] [] (stripBOM csv).data (by simp)
  · unfold parseRows parseRowsAll
    exact parseRowsAllAux_sub false [] [] [] (stripBOM csv).data [] (by simp)
  · unfold parseRows parseRowsAll
    exact parseRowsAllAux_last false [] [] [] (stripBOM csv).data []

/-- Witness for C3 (amended) on the input `"a,b\n,"`: the non-empty row
`["a","b"]` is never dropped, and the final unterminated line consisting of
two empty cells is kept as the last output row. -/
theorem c3_witness :
    ((∃ pre, parseRows "a,b\n," = pre ++ [["", ""]]) ∧ 2 ≤ (["", ""] : List String).length) ∧
      ["a", "b"] ∈ parseRows "a,b\n," ∧ ["", ""] ∈ parseRows "a,b\n," :=
  ⟨(c3_all_empty_rows "a,b\n,").1 ["", ""] (by decide) (by decide),
    (c3_all_empty_rows "a,b\n,").2.1 ["a", "b"] (by decide) (by decide),
    (c3_all_empty_rows "a,b\n,").2.2 ["", ""] (by decide) (by decide)⟩

/-- Counterexample for C3 as stated: the input `"a,b\n,"` ends in an
unterminated line holding a single comma; both of its cells are empty, yet
the row is kept, so the parser output does contain an all-empty row. -/
theorem c3_counterexample :
    ¬ ∀ r ∈ parseRows "a,b\n,", ∃ cell ∈ r, cell ≠ "" := by
  decide

/-! ### C4: totality and the degenerate behaviors -/

/-- C4: the parser and record builder are total Lean functions (so the pipeline
cannot throw), and the two specified degenerate behaviors hold: when the
scanner is inside a quote and no closing quote ever occurs, the entire
remainder of the input is consumed as quoted field content and the parse
finishes normally; and an input yielding fewer than two rows produces an empty
record list. -/
theorem c4_parser_total :
    (∀ (field : List Char) (row : List String) (rows : List (List String)) (cs : List Char),
        '"' ∉ cs →
          parseRowsAux true field row rows cs = finishRows (field ++ cs) row rows) ∧
      ∀ csv : String, (parseRows csv).length < 2 → parseCSV csv = [] := by
  constructor
  · intro field row rows cs
    induction cs generalizing field with
    | nil =>
      intro _
      rw [stepNil]
      simp
    | cons c rest ih =>
      intro hq
      have hc : ¬ c = '"' := fun h => hq (h ▸ List.mem_cons_self c rest)
      rw [stepInQ field row rows c rest hc, ih (field ++ [c]) fun h => hq (List.mem_cons_of_mem c h)]
      simp
  · intro csv h
    unfold parseCSV
    split
    · rfl
    · rfl
    next hdr d hne heq =>
      exfalso
      rw [heq] at h
      simp only [List.length_cons] at h
      exact hne (List.eq_nil_of_length_eq_zero (by omega))

/-- Witness for C4: the unterminated-quote tail `ab` is consumed as field
content, and the single-row input `x` yields no records. -/
theorem c4_witness :
    parseRowsAux true [] [] [] ['a', 'b'] = finishRows (([] : List Char) ++ ['a', 'b']) [] [] ∧
      parseCSV "x" = [] :=
  ⟨c4_parser_total.1 [] [] [] ['a', 'b'] (by decide), c4_parser_total.2 "x" (by decide)⟩

/-! ### C1, C2: the merger -/

/-- The ten decimal digit characters. -/
def decDigitChars : List Char := ['0', '1', '2', '3', '4', '5', '6', '7', '8', '9']

lemma digitChar_mem (d : Nat) : digitChar d ∈ decDigitChars := by
  rcases d with _ | _ | _ | _ | _ | _ | _ | _ | _ | d
  all_goals try decide
  show ('9' : Char) ∈ decDigitChars
  decide

lemma mem_decDigits (fuel : Nat) : ∀ n : Nat, ∀ c ∈ decDigits fuel n, c ∈ decDigitChars := by
  induction fuel with
  | zero => intro n c hc; simp [decDigits] at hc
  | succ fuel ih =>
    intro n c hc
    unfold decDigits at hc
    split at hc
    · simp only [List.mem_singleton] at hc
      exact hc ▸ digitChar_mem n
    · rcases List.mem_append.mp hc with h | h
      · exact ih (n / 10) c h
      · simp only [List.mem_singleton] at h
        exact h ▸ digitChar_mem (n % 10)

lemma decDigits_ne_nil (fuel n : Nat) (h : 0 < fuel) : decDigits fuel n ≠ [] := by
  cases fuel with
  | zero => omega
  | succ fuel =>
    unfold decDigits
    split
    · simp
    · simp

lemma digitVal_digitChar (d : Nat) (h : d < 10) : digitVal (digitChar d) = d := by
  interval_cases d <;> decide

lemma digitsVal_decDigits (fuel : Nat) : ∀ n : Nat, n < fuel → digitsVal (decDigits fuel n) = n := by
  induction fuel with
  | zero => omega
  | succ fuel ih =>
    intro n h
    unfold decDigits
    split
    next h10 =>
      simp [digitsVal, digitVal_digitChar n h10]
    next h10 =>
      push_neg at h10
      have hlt : n / 10 < fuel :=
        Nat.lt_of_lt_of_le (Nat.div_lt_self (by omega) (by omega)) (Nat.lt_succ_iff.mp h)
      have hmod : digitVal (digitChar (n % 10)) = n % 10 :=
        digitVal_digitChar _ (Nat.mod_lt _ (by omega))
      simp only [digitsVal, List.foldl_append, List.foldl_cons, List.foldl_nil]
      have := ih (n / 10) hlt
      simp only [digitsVal] at this
      rw [this, hmod]
      omega

lemma decNat_inj {a b : Nat} (h : decNat a = decNat b) : a = b := by
  have ha := digitsVal_decDigits (a + 1) a (by omega)
  have hb := digitsVal_decDigits (b + 1) b (by omega)
  unfold decNat at h
  rw [h] at ha
  omega

lemma trimEnds_eq_self (p : Char → Bool) (l : List Char)
    (h1 : ∀ c, l.head? = some c → p c = false)
    (h2 : ∀ c, l.getLast? = some c → p c = false) : trimEnds p l = l := by
  cases l with
  | nil => rfl
  | cons a t =>
    unfold trimEnds
    rw [List.dropWhile_cons, if_neg (by simp [h1 a rfl])]
    cases hrev : (a :: t).reverse with
    | nil => exact absurd (congrArg List.length hrev) (by simp)
    | cons z w =>
      have hz : p z = false := by
        apply h2
        rw [← List.head?_reverse, hrev]
        rfl
      rw [List.dropWhile_cons, if_neg (by simp [hz]), ← hrev, List.reverse_reverse]

lemma takeWhile_append_stop (p : Char → Bool) (y : Char) (hy : p y = false) :
    ∀ (X Y : List Char), (∀ c ∈ X, p c = true) → (X ++ y :: Y).takeWhile p = X := by
  intro X
  induction X with
  | nil => intro Y _; simp [List.takeWhile_cons, hy]
  | cons a t ih =>
    intro Y hX
    rw [List.cons_append, List.takeWhile_cons, if_pos (hX a (by simp))]
    rw [ih Y fun c hc => hX c (List.mem_cons_of_mem a hc)]

lemma digit_ne_dash {c : Char} (h : c ∈ decDigitChars) : c ≠ '-' := by
  fin_cases h <;> decide

lemma digit_isDigitCh {c : Char} (h : c ∈ decDigitChars) : isDigitCh c = true := by
  fin_cases h <;> decide

lemma append_dash_digits_inj {F G D E : List Char}
    (hD : ∀ c ∈ D, c ∈ decDigitChars) (hE : ∀ c ∈ E, c ∈ decDigitChars)
    (h : F ++ '-' :: D = G ++ '-' :: E) : D = E := by
  have hrev := congrArg List.reverse h
  simp only [List.reverse_append, List.reverse_cons, List.append_assoc,
    List.singleton_append] at hrev
  have hD' : ∀ c ∈ D.reverse, isDigitCh c = true := fun c hc =>
    digit_isDigitCh (hD c (List.mem_reverse.mp hc))
  have hE' : ∀ c ∈ E.reverse, isDigitCh c = true := fun c hc =>
    digit_isDigitCh (hE c (List.mem_reverse.mp hc))
  have e1 := takeWhile_append_stop isDigitCh '-' (by decide) D.reverse F.reverse hD'
  have e2 := takeWhile_append_stop isDigitCh '-' (by decide) E.reverse G.reverse hE'
  have : D.reverse = E.reverse := by rw [← e1, ← e2, hrev]
  simpa using congrArg List.reverse this

lemma squash_cons2 (a b : Char) (t : List Char) :
    squash (a :: b :: t)
      = if (a == '-' && b == '-') = true then squash (b :: t) else a :: squash (b :: t) := rfl

lemma squash_nodash : ∀ l : List Char, (∀ c ∈ l, c ≠ '-') → squash l = l := by
  intro l
  induction l with
  | nil => intro _; rfl
  | cons a t ih =>
    intro h
    cases t with
    | nil => rfl
    | cons b u =>
      rw [squash_cons2, if_neg (by simp; intro h1; exact absurd h1 (h a (by simp)))]
      rw [ih fun c hc => h c (List.mem_cons_of_mem a hc)]

lemma squash_dash_digits : ∀ D : List Char, D ≠ [] → (∀ c ∈ D, isDigitCh c = true) →
    squash ('-' :: D) = '-' :: D := by
  intro D hne hdig
  cases D with
  | nil => exact absurd rfl hne
  | cons d D2 =>
    have hd : ¬ d = '-' := by
      intro hd
      rw [hd] at hdig
      exact absurd (hdig '-' (by simp)) (by decide)
    rw [squash_cons2, if_neg (by simp [hd])]
    rw [squash_nodash (d :: D2) ?_]
    intro c hc hcd
    rw [hcd] at hc
    exact absurd (hdig '-' hc) (by decide)

lemma squash_append_digits : ∀ X D : List Char, D ≠ [] → (∀ c ∈ D, isDigitCh c = true) →
    squash (X ++ '-' :: D) = squash (X ++ ['-']) ++ D := by
  intro X
  induction X with
  | nil =>
    intro D hne hdig
    show squash ('-' :: D) = squash ['-'] ++ D
    rw [squash_dash_digits D hne hdig]
    rfl
  | cons a X2 ih =>
    intro D hne hdig
    cases X2 with
    | nil =>
      show squash (a :: '-' :: D) = squash [a, '-'] ++ D
      by_cases ha : a = '-'
      · subst ha
        rw [squash_cons2, if_pos (by simp), squash_dash_digits D hne hdig]
        rfl
      · rw [squash_cons2, if_neg (by simp [ha]), squash_dash_digits D hne hdig]
        rw [squash_cons2, if_neg (by simp [ha])]
        rfl
    | cons b X3 =>
      show squash (a :: b :: (X3 ++ '-' :: D)) = squash (a :: b :: (X3 ++ ['-'])) ++ D
      by_cases hab : (a == '-' && b == '-') = true
      · rw [squash_cons2, if_pos hab, squash_cons2, if_pos hab]
        have ih2 := ih D hne hdig
        simp only [List.cons_append] at ih2
        exact ih2
      · rw [squash_cons2, if_neg hab, squash_cons2, if_neg hab]
        have ih2 := ih D hne hdig
        simp only [List.cons_append] at ih2
        rw [ih2]
        rfl

lemma squash_concat_dash : ∀ Z : List Char, ∃ F, squash (Z ++ ['-']) = F ++ ['-'] := by
  intro Z
  induction Z with
  | nil => exact ⟨[], rfl⟩
  | cons a Z2 ih =>
    cases Z2 with
    | nil =>
      by_cases ha : a = '-'
      · subst ha
        exact ⟨[], by decide⟩
      · refine ⟨[a], ?_⟩
        show squash [a, '-'] = [a] ++ ['-']
        rw [squash_cons2, if_neg (by simp [ha])]
        rfl
    | cons b Z3 =>
      obtain ⟨F, hF⟩ := ih
      by_cases hab : (a == '-' && b == '-') = true
      · refine ⟨F, ?_⟩
        show squash (a :: b :: (Z3 ++ ['-'])) = F ++ ['-']
        rw [squash_cons2, if_pos hab]
        have hF2 := hF
        simp only [List.cons_append] at hF2
        exact hF2
      · refine ⟨a :: F, ?_⟩
        show squash (a :: b :: (Z3 ++ ['-'])) = (a :: F) ++ ['-']
        have hF2 := hF
        simp only [List.cons_append] at hF2
        rw [squash_cons2, if_neg hab, hF2]
        rfl

lemma squash_cons_ne_dash (a : Char) (l : List Char) (ha : a ≠ '-') :
    ∃ R, squash (a :: l) = a :: R := by
  cases l with
  | nil => exact ⟨[], rfl⟩
  | cons b t =>
    refine ⟨squash (b :: t), ?_⟩
    rw [squash_cons2, if_neg (by simp [ha])]

lemma joinSp_cons2 (p q : List Char) (rest : List (List Char)) :
    joinSp (p :: q :: rest) = p ++ ' ' :: joinSp (q :: rest) := rfl

lemma joinSp_concat (ps : List (List Char)) (q : List Char) (h : ps ≠ []) :
    joinSp (ps ++ [q]) = joinSp ps ++ ' ' :: q := by
  induction ps with
  | nil => exact absurd rfl h
  | cons p ps2 ih =>
    cases ps2 with
    | nil => rfl
    | cons p2 ps3 =>
      show joinSp (p :: (p2 :: (ps3 ++ [q]))) = joinSp (p :: p2 :: ps3) ++ ' ' :: q
      rw [show (p2 :: (ps3 ++ [q])) = (p2 :: ps3) ++ [q] from rfl]
      rw [joinSp_cons2 p p2 ps3]
      rw [show joinSp (p :: ((p2 :: ps3) ++ [q])) = p ++ ' ' :: joinSp ((p2 :: ps3) ++ [q]) from rfl]
      rw [ih (by simp)]
      simp

lemma joinSp_cons_ex (p : List Char) (r : List (List Char)) : ∃ T, joinSp (p :: r) = p ++ T := by
  cases r with
  | nil => exact ⟨[], by simp [joinSp]⟩
  | cons q t => exact ⟨' ' :: joinSp (q :: t), rfl⟩

/-- The first character of each source-tag slug component. -/
def tagHead : Flag → Char
  | .mew => 'm'
  | .cameo => 'c'
  | .intl => 'i'

lemma mergeOne_id (fl : Flag) (i : Nat) (c : PokeCard) :
    (mergeOne fl i c).id
      = slugify [flagTag fl, c.nameEN, c.set, c.number, intStr c.year, natStr i] := by
  cases fl <;> simp [mergeOne, setFlag, flagTag]

lemma strMk_ne_empty {l : List Char} (h : l ≠ []) : String.mk l ≠ "" := by
  intro hc
  exact h (congrArg String.data hc)

lemma decNat_ne_nil (n : Nat) : decNat n ≠ [] := decDigits_ne_nil (n + 1) n (by omega)

lemma mem_decNat (n : Nat) : ∀ c ∈ decNat n, c ∈ decDigitChars := mem_decDigits (n + 1) n

lemma decInt_ne_nil (j : Int) : decInt j ≠ [] := by
  unfold decInt
  split
  · simp
  · exact decNat_ne_nil _

lemma digit_not_ws {c : Char} (h : c ∈ decDigitChars) : jsWs c = false := by
  fin_cases h <;> decide

lemma digit_keep {c : Char} (h : c ∈ decDigitChars) : keepAlnum c = true := by
  fin_cases h <;> decide

lemma digit_toLower {c : Char} (h : c ∈ decDigitChars) : Char.toLower c = c := by
  fin_cases h <;> decide

lemma lowerL_digits (l : List Char) (h : ∀ c ∈ l, c ∈ decDigitChars) : lowerL l = l := by
  induction l with
  | nil => rfl
  | cons a t ih =>
    show Char.toLower a :: lowerL t = a :: t
    rw [digit_toLower (h a (by simp)), ih fun c hc => h c (List.mem_cons_of_mem a hc)]

lemma dashify_digits (l : List Char) (h : ∀ c ∈ l, c ∈ decDigitChars) : dashify l = l := by
  induction l with
  | nil => rfl
  | cons a t ih =>
    show (if keepAlnum a then a else '-') :: dashify t = a :: t
    rw [if_pos (digit_keep (h a (by simp))), ih fun c hc => h c (List.mem_cons_of_mem a hc)]

lemma flagTag_shape (fl : Flag) : ∃ tr, (flagTag fl).data = tagHead fl :: tr := by
  cases fl <;> exact ⟨_, rfl⟩

lemma flagTag_ne_empty (fl : Flag) : flagTag fl ≠ "" := by cases fl <;> decide

lemma tagHead_not_ws (fl : Flag) : jsWs (tagHead fl) = false := by cases fl <;> decide

lemma tagHead_ne_dash (fl : Flag) : tagHead fl ≠ '-' := by cases fl <;> decide

lemma tagHead_toLower (fl : Flag) : Char.toLower (tagHead fl) = tagHead fl := by
  cases fl <;> decide

lemma tagHead_keep (fl : Flag) : keepAlnum (tagHead fl) = true := by cases fl <;> decide

lemma tagHead_inj {fl₁ fl₂ : Flag} (h : tagHead fl₁ = tagHead fl₂) : fl₁ = fl₂ := by
  cases fl₁ <;> cases fl₂ <;> first | rfl | exact absurd h (by decide)

lemma dashify_lower_tag (fl : Flag) :
    dashify (lowerL (flagTag fl).data) = (flagTag fl).data := by
  cases fl <;> decide

/-- The shape of a slug whose head character survives slugification and whose
final component is the decimal index: the result keeps the head and ends in
`"-" ++ decNat i`. -/
lemma slugCore_tail (th : Char) (T2 : List Char) (i : Nat)
    (hw : jsWs th = false) (hd : th ≠ '-')
    (hlow : Char.toLower th = th) (hkeep : keepAlnum th = true) :
    ∃ R F, slugCore ((th :: T2) ++ ' ' :: decNat i) = th :: R ∧
      slugCore ((th :: T2) ++ ' ' :: decNat i) = F ++ '-' :: decNat i := by
  obtain ⟨w, z, hwz, hzd⟩ : ∃ w z, decNat i = w ++ [z] ∧ z ∈ decDigitChars := by
    rcases List.eq_nil_or_concat (decNat i) with h | ⟨w, z, hwz⟩
    · exact absurd h (decNat_ne_nil i)
    · rw [List.concat_eq_append] at hwz
      exact ⟨w, z, hwz, mem_decNat i z (by rw [hwz]; simp)⟩
  have htrim : jsTrim ((th :: T2) ++ ' ' :: decNat i) = (th :: T2) ++ ' ' :: decNat i := by
    apply trimEnds_eq_self
    · intro ch hch
      simp only [List.cons_append, List.head?_cons, Option.some.injEq] at hch
      rw [← hch]
      exact hw
    · intro ch hch
      rw [hwz, show (th :: T2) ++ ' ' :: (w ++ [z]) = ((th :: T2) ++ ' ' :: w) ++ [z] from by
        simp] at hch
      rw [List.getLast?_concat] at hch
      rw [← Option.some.inj hch]
      exact digit_not_ws hzd
  have hlower : lowerL ((th :: T2) ++ ' ' :: decNat i)
      = (th :: lowerL T2) ++ ' ' :: decNat i := by
    unfold lowerL
    rw [List.map_append, List.map_cons, List.map_cons, hlow,
      show Char.toLower ' ' = ' ' from by decide,
      show List.map Char.toLower (decNat i) = decNat i from
        lowerL_digits (decNat i) (mem_decNat i)]
  have hdash : dashify ((th :: lowerL T2) ++ ' ' :: decNat i)
      = (th :: dashify (lowerL T2)) ++ '-' :: decNat i := by
    unfold dashify
    rw [List.map_append, List.map_cons, List.map_cons, if_pos hkeep,
      show (if keepAlnum ' ' = true then ' ' else '-') = '-' from by decide,
      show List.map (fun c => if keepAlnum c = true then c else '-') (decNat i) = decNat i from
        dashify_digits (decNat i) (mem_decNat i)]
  have hsq : squash ((th :: dashify (lowerL T2)) ++ '-' :: decNat i)
      = squash ((th :: dashify (lowerL T2)) ++ ['-']) ++ decNat i :=
    squash_append_digits _ _ (decNat_ne_nil i) fun c hc => digit_isDigitCh (mem_decNat i c hc)
  obtain ⟨F0, hF0⟩ := squash_concat_dash (th :: dashify (lowerL T2))
  obtain ⟨R1, hR1⟩ := squash_cons_ne_dash th (dashify (lowerL T2) ++ ['-']) hd
  have hR1a : squash ((th :: dashify (lowerL T2)) ++ ['-']) = th :: R1 := by
    rw [List.cons_append]
    exact hR1
  have hstrip : stripDashes (squash ((th :: dashify (lowerL T2)) ++ ['-']) ++ decNat i)
      = squash ((th :: dashify (lowerL T2)) ++ ['-']) ++ decNat i := by
    apply trimEnds_eq_self
    · intro ch hch
      rw [hR1a] at hch
      simp only [List.cons_append, List.head?_cons, Option.some.injEq] at hch
      rw [← hch]
      simp [hd]
    · intro ch hch
      rw [hwz, show squash ((th :: dashify (lowerL T2)) ++ ['-']) ++ (w ++ [z])
          = (squash ((th :: dashify (lowerL T2)) ++ ['-']) ++ w) ++ [z] from by simp] at hch
      rw [List.getLast?_concat] at hch
      rw [← Option.some.inj hch]
      simp [digit_ne_dash hzd]
  refine ⟨R1 ++ decNat i, F0, ?_, ?_⟩
  · unfold slugCore
    rw [htrim, hlower, hdash, hsq, hstrip, hR1a]
    rfl
  · unfold slugCore
    rw [htrim, hlower, hdash, hsq, hstrip, hF0]
    simp

/-- The two load-bearing shapes of every merged id: it starts with the first
letter of its source tag, and it ends with a dash followed by the decimal
representation of its index. -/
lemma mergeOne_id_data (fl : Flag) (i : Nat) (c : PokeCard) :
    ∃ R F, (mergeOne fl i c).id.data = tagHead fl :: R ∧
      (mergeOne fl i c).id.data = F ++ '-' :: decNat i := by
  obtain ⟨tr, htag⟩ := flagTag_shape fl
  have hfil : (([flagTag fl, c.nameEN, c.set, c.number, intStr c.year, natStr i].filter
        fun p => p ≠ "").map String.data)
      = (flagTag fl).data ::
          (([c.nameEN, c.set, c.number].filter fun p => p ≠ "").map String.data
            ++ [decInt c.year, decNat i]) := by
    rw [show [flagTag fl, c.nameEN, c.set, c.number, intStr c.year, natStr i]
        = [flagTag fl] ++ ([c.nameEN, c.set, c.number] ++ [intStr c.year, natStr i]) from rfl,
      List.filter_append, List.filter_append,
      show [flagTag fl].filter (fun p => p ≠ "") = [flagTag fl] from by
        simp [flagTag_ne_empty fl],
      show [intStr c.year, natStr i].filter (fun p => p ≠ "") = [intStr c.year, natStr i] from by
        simp [strMk_ne_empty (decInt_ne_nil c.year), strMk_ne_empty (decNat_ne_nil i), intStr,
          natStr]]
    simp [intStr, natStr]
  obtain ⟨T, hT⟩ := joinSp_cons_ex (flagTag fl).data
    (([c.nameEN, c.set, c.number].filter fun p => p ≠ "").map String.data ++ [decInt c.year])
  have hjoin : joinSp ((flagTag fl).data ::
      (([c.nameEN, c.set, c.number].filter fun p => p ≠ "").map String.data
        ++ [decInt c.year, decNat i]))
      = ((flagTag fl).data ++ T) ++ ' ' :: decNat i := by
    rw [show (flagTag fl).data ::
        (([c.nameEN, c.set, c.number].filter fun p => p ≠ "").map String.data
          ++ [decInt c.year, decNat i])
        = ((flagTag fl).data ::
            (([c.nameEN, c.set, c.number].filter fun p => p ≠ "").map String.data
              ++ [decInt c.year])) ++ [decNat i] from by simp,
      joinSp_concat _ _ (by simp), hT]
  have hhead : (flagTag fl).data ++ T = tagHead fl :: (tr ++ T) := by
    rw [htag]
    rfl
  obtain ⟨R, F, h1, h2⟩ := slugCore_tail (tagHead fl) (tr ++ T) i (tagHead_not_ws fl)
    (tagHead_ne_dash fl) (tagHead_toLower fl) (tagHead_keep fl)
  refine ⟨R, F, ?_, ?_⟩
  · rw [mergeOne_id]
    simp only [slugify]
    rw [hfil, hjoin, hhead, h1, if_neg (by simp)]
  · rw [mergeOne_id]
    simp only [slugify]
    rw [hfil, hjoin, hhead]
    rw [if_neg (by rw [h1]; simp)]
    show slugCore ((tagHead fl :: (tr ++ T)) ++ ' ' :: decNat i) = F ++ '-' :: decNat i
    exact h2

/-- A merged id determines the source flag and the index within the group. -/
lemma mergeOne_id_inj {fl₁ fl₂ : Flag} {i₁ i₂ : Nat} {c₁ c₂ : PokeCard}
    (h : (mergeOne fl₁ i₁ c₁).id = (mergeOne fl₂ i₂ c₂).id) : fl₁ = fl₂ ∧ i₁ = i₂ := by
  have hd := congrArg String.data h
  obtain ⟨R₁, F₁, e₁, f₁⟩ := mergeOne_id_data fl₁ i₁ c₁
  obtain ⟨R₂, F₂, e₂, f₂⟩ := mergeOne_id_data fl₂ i₂ c₂
  constructor
  · have hh : tagHead fl₁ :: R₁ = tagHead fl₂ :: R₂ := by rw [← e₁, ← e₂, hd]
    obtain ⟨hh1, -⟩ := List.cons.inj hh
    exact tagHead_inj hh1
  · have hh : F₁ ++ '-' :: decNat i₁ = F₂ ++ '-' :: decNat i₂ := by rw [← f₁, ← f₂, hd]
    exact decNat_inj (append_dash_digits_inj (mem_decNat i₁) (mem_decNat i₂) hh)

lemma mem_mergeGroup (fl : Flag) : ∀ (n : Nat) (l : List PokeCard) (x : PokeCard),
    x ∈ mergeGroup fl n l → ∃ j c, n ≤ j ∧ x = mergeOne fl j c := by
  intro n l
  induction l generalizing n with
  | nil => intro x hx; simp [mergeGroup] at hx
  | cons c t ih =>
    intro x hx
    rw [show mergeGroup fl n (c :: t) = mergeOne fl n c :: mergeGroup fl (n + 1) t from rfl]
      at hx
    rcases List.mem_cons.mp hx with h | h
    · exact ⟨n, c, le_refl n, h⟩
    · obtain ⟨j, d, hj, hx2⟩ := ih (n + 1) x h
      exact ⟨j, d, by omega, hx2⟩

lemma mergeGroup_pairwise (fl : Flag) : ∀ (n : Nat) (l : List PokeCard),
    (mergeGroup fl n l).Pairwise (fun a b => a.id ≠ b.id) := by
  intro n l
  induction l generalizing n with
  | nil => exact List.Pairwise.nil
  | cons c t ih =>
    rw [show mergeGroup fl n (c :: t) = mergeOne fl n c :: mergeGroup fl (n + 1) t from rfl]
    refine List.Pairwise.cons ?_ (ih (n + 1))
    intro b hb heq
    obtain ⟨j, d, hj, rfl⟩ := mem_mergeGroup fl (n + 1) t b hb
    obtain ⟨-, hij⟩ := mergeOne_id_inj heq
    omega

lemma mem_mergeCards : ∀ (gs : List Group) (x : PokeCard),
    x ∈ mergeCardsNoDedupe gs → ∃ g ∈ gs, x ∈ mergeGroup g.flag 0 g.cards := by
  intro gs
  induction gs with
  | nil => intro x hx; simp [mergeCardsNoDedupe] at hx
  | cons g rest ih =>
    intro x hx
    rw [show mergeCardsNoDedupe (g :: rest)
        = mergeGroup g.flag 0 g.cards ++ mergeCardsNoDedupe rest from rfl] at hx
    rcases List.mem_append.mp hx with h | h
    · exact ⟨g, by simp, h⟩
    · obtain ⟨g2, hg2, hx2⟩ := ih x h
      exact ⟨g2, by simp [hg2], hx2⟩

/-- C1 (amended): when the supplied groups carry pairwise-distinct source
tags, every two records of the merger output at distinct positions have
distinct id strings; and every merged id is computed deterministically by
slugifying the source-tag, name, set, number, year and row position of
the record, the id of the raw input record being discarded. -/
theorem c1_merged_ids_unique (groups : List Group)
    (hdist : groups.Pairwise fun g₁ g₂ => g₁.flag ≠ g₂.flag) :
    (mergeCardsNoDedupe groups).Pairwise (fun a b => a.id ≠ b.id) ∧
      ∀ (fl : Flag) (i : Nat) (c : PokeCard),
        (mergeOne fl i c).id
          = slugify [flagTag fl, c.nameEN, c.set, c.number, intStr c.year, natStr i] := by
  refine ⟨?_, mergeOne_id⟩
  induction groups with
  | nil => exact List.Pairwise.nil
  | cons g rest ih =>
    rw [show mergeCardsNoDedupe (g :: rest)
        = mergeGroup g.flag 0 g.cards ++ mergeCardsNoDedupe rest from rfl]
    rw [List.pairwise_append]
    refine ⟨mergeGroup_pairwise g.flag 0 g.cards, ih hdist.of_cons, ?_⟩
    intro a ha b hb heq
    obtain ⟨j₁, c₁, -, rfl⟩ := mem_mergeGroup g.flag 0 g.cards a ha
    obtain ⟨g₂, hg₂, hb₂⟩ := mem_mergeCards rest b hb
    obtain ⟨j₂, c₂, -, rfl⟩ := mem_mergeGroup g₂.flag 0 g₂.cards b hb₂
    obtain ⟨hfl, -⟩ := mergeOne_id_inj heq
    exact (List.pairwise_cons.mp hdist).1 g₂ hg₂ hfl

/-- Witness for C1 on two concrete groups with distinct tags, each holding a
record with the same name, set, number and year. -/
theorem c1_witness :
    (mergeCardsNoDedupe
        [⟨[{ id := "x", nameEN := "Mew", set := "s", number := "1", year := 2000 }], .mew⟩,
          ⟨[{ id := "y", nameEN := "Mew", set := "s", number := "1", year := 2000 }], .cameo⟩]
      ).Pairwise (fun a b => a.id ≠ b.id) :=
  (c1_merged_ids_unique _ (by decide)).1

/-- Counterexample for C1 as stated: nothing forces the supplied groups to
carry distinct source tags, and two same-tag groups can produce two distinct
records (the names differ) carrying one and the same id, since the slug
collapses the punctuation difference between the names `a b` and `a.b`. -/
theorem c1_counterexample :
    ((mergeCardsNoDedupe
          [⟨[{ id := "x", nameEN := "a b", set := "s", number := "1", year := 2000 }], .mew⟩,
            ⟨[{ id := "y", nameEN := "a.b", set := "s", number := "1", year := 2000 }], .mew⟩]
        ).map fun c => c.id) = ["mew-a-b-s-1-2000-0", "mew-a-b-s-1-2000-0"] ∧
      (mergeCardsNoDedupe
          [⟨[{ id := "x", nameEN := "a b", set := "s", number := "1", year := 2000 }], .mew⟩,
            ⟨[{ id := "y", nameEN := "a.b", set := "s", number := "1", year := 2000 }], .mew⟩]
        ).getD 0 { id := "", nameEN := "" }
        ≠ (mergeCardsNoDedupe
            [⟨[{ id := "x", nameEN := "a b", set := "s", number := "1", year := 2000 }], .mew⟩,
              ⟨[{ id := "y", nameEN := "a.b", set := "s", number := "1", year := 2000 }], .mew⟩]
          ).getD 1 { id := "", nameEN := "" } := by
  exact ⟨by decide, by decide⟩

/-- All fields of a record except the id and the three category flags, which
are the fields rewritten by the merger. -/
def coreFields (c : PokeCard) : PokeCard :=
  { c with id := "", isMew := none, isCameo := none, isIntl := none }

lemma coreFields_mergeOne (fl : Flag) (i : Nat) (c : PokeCard) :
    coreFields (mergeOne fl i c) = coreFields c := by
  cases fl <;> simp [mergeOne, setFlag, coreFields]

lemma mergeGroup_length (fl : Flag) : ∀ (n : Nat) (l : List PokeCard),
    (mergeGroup fl n l).length = l.length := by
  intro n l
  induction l generalizing n with
  | nil => rfl
  | cons c t ih =>
    show (mergeOne fl n c :: mergeGroup fl (n + 1) t).length = t.length + 1
    simp [ih (n + 1)]

lemma mergeGroup_map_core (fl : Flag) : ∀ (n : Nat) (l : List PokeCard),
    (mergeGroup fl n l).map coreFields = l.map coreFields := by
  intro n l
  induction l generalizing n with
  | nil => rfl
  | cons c t ih =>
    show coreFields (mergeOne fl n c) :: (mergeGroup fl (n + 1) t).map coreFields = _
    rw [coreFields_mergeOne, ih (n + 1)]
    rfl

lemma mergeGroup_getD (fl : Flag) (dflt : PokeCard) :
    ∀ (n : Nat) (l : List PokeCard) (j : Nat), j < l.length →
    (mergeGroup fl n l).getD j dflt = mergeOne fl (n + j) (l.getD j dflt) := by
  intro n l
  induction l generalizing n with
  | nil => intro j h; simp at h
  | cons c t ih =>
    intro j h
    cases j with
    | zero => simp [mergeGroup]
    | succ j =>
      have ht : j < t.length := by simpa using h
      show (mergeOne fl n c :: mergeGroup fl (n + 1) t).getD (j + 1) dflt = _
      rw [List.getD_cons_succ, ih (n + 1) j ht,
        show n + 1 + j = n + (j + 1) from by omega]
      rfl

/-- C2 (amended): merging two groups with distinct source tags, each of which
contains a record with identical field values, keeps both records — the
output is positionally the concatenation of the two record lists (equal up to
the rewritten id and category flags), in supplied order — and the two copies
carry two distinct ids. -/
theorem c2_two_sources (cs₁ cs₂ : List PokeCard) (fl₁ fl₂ : Flag) (hfl : fl₁ ≠ fl₂)
    (i₁ i₂ : Nat) (h₁ : i₁ < cs₁.length) (h₂ : i₂ < cs₂.length)
    (hsame : cs₁.getD i₁ { id := "", nameEN := "" } = cs₂.getD i₂ { id := "", nameEN := "" }) :
    (mergeCardsNoDedupe [⟨cs₁, fl₁⟩, ⟨cs₂, fl₂⟩]).length = cs₁.length + cs₂.length ∧
      (mergeCardsNoDedupe [⟨cs₁, fl₁⟩, ⟨cs₂, fl₂⟩]).map coreFields
        = (cs₁ ++ cs₂).map coreFields ∧
      ((mergeCardsNoDedupe [⟨cs₁, fl₁⟩, ⟨cs₂, fl₂⟩]).getD i₁ { id := "", nameEN := "" }).id
        ≠ ((mergeCardsNoDedupe [⟨cs₁, fl₁⟩, ⟨cs₂, fl₂⟩]).getD (cs₁.length + i₂)
            { id := "", nameEN := "" }).id := by
  have hout : mergeCardsNoDedupe [⟨cs₁, fl₁⟩, ⟨cs₂, fl₂⟩]
      = mergeGroup fl₁ 0 cs₁ ++ mergeGroup fl₂ 0 cs₂ := by
    show mergeGroup fl₁ 0 cs₁ ++ (mergeGroup fl₂ 0 cs₂ ++ []) = _
    rw [List.append_nil]
  refine ⟨?_, ?_, ?_⟩
  · rw [hout]
    simp [mergeGroup_length]
  · rw [hout, List.map_append, mergeGroup_map_core, mergeGroup_map_core, List.map_append]
  · rw [hout]
    rw [List.getD_append _ _ _ _ (by rw [mergeGroup_length]; exact h₁)]
    rw [List.getD_append_right _ _ _ _ (by rw [mergeGroup_length]; omega)]
    rw [mergeGroup_getD fl₁ _ 0 cs₁ i₁ h₁]
    rw [show cs₁.length + i₂ - (mergeGroup fl₁ 0 cs₁).length = i₂ from by
      rw [mergeGroup_length]; omega]
    rw [mergeGroup_getD fl₂ _ 0 cs₂ i₂ h₂]
    intro heq
    exact hfl (mergeOne_id_inj heq).1

/-- The record used by the C2 witness. -/
def mewBaseCard : PokeCard :=
  { id := "x", nameEN := "Mew", set := "Base", number := "8", year := 1999 }

/-- Witness for C2: two one-record groups with distinct tags holding the very
same record. -/
theorem c2_witness :
    (mergeCardsNoDedupe [⟨[mewBaseCard], .mew⟩, ⟨[mewBaseCard], .cameo⟩]).length
        = [mewBaseCard].length + [mewBaseCard].length ∧
      (mergeCardsNoDedupe [⟨[mewBaseCard], .mew⟩, ⟨[mewBaseCard], .cameo⟩]).map coreFields
        = ([mewBaseCard] ++ [mewBaseCard]).map coreFields ∧
      ((mergeCardsNoDedupe [⟨[mewBaseCard], .mew⟩, ⟨[mewBaseCard], .cameo⟩]).getD 0
          { id := "", nameEN := "" }).id
        ≠ ((mergeCardsNoDedupe [⟨[mewBaseCard], .mew⟩, ⟨[mewBaseCard], .cameo⟩]).getD
            ([mewBaseCard].length + 0) { id := "", nameEN := "" }).id :=
  c2_two_sources _ _ .mew .cameo (by decide) 0 0 (by decide) (by decide) rfl

/-- Counterexample for C2 as stated: nothing forces two supplied groups to
carry distinct source tags; two same-tag groups each containing the identical
record yield two surviving records whose ids coincide. -/
theorem c2_counterexample :
    (mergeCardsNoDedupe
        [⟨[{ id := "x", nameEN := "Pika", set := "s", number := "2", year := 1999 }], .mew⟩,
          ⟨[{ id := "y", nameEN := "Pika", set := "s", number := "2", year := 1999 }], .mew⟩]
      ).length = 2 ∧
      ((mergeCardsNoDedupe
          [⟨[{ id := "x", nameEN := "Pika", set := "s", number := "2", year := 1999 }], .mew⟩,
            ⟨[{ id := "y", nameEN := "Pika", set := "s", number := "2", year := 1999 }], .mew⟩]
        ).getD 0 { id := "", nameEN := "" }).id
        = ((mergeCardsNoDedupe
            [⟨[{ id := "x", nameEN := "Pika", set := "s", number := "2", year := 1999 }], .mew⟩,
              ⟨[{ id := "y", nameEN := "Pika", set := "s", number := "2", year := 1999 }], .mew⟩]
          ).getD 1 { id := "", nameEN := "" }).id := by
  exact ⟨by decide, by decide⟩

end Cards
